import Mathlib

/-!
# Verification of the NBA transfer-simulation core (`examples/nba/nba_agent.py`)

This file gives a shallow embedding of the simulation/resolution core of the
NBA multi-agent transfer simulation and proves properties of it.

Embedding conventions:

* Python `int` is modelled as `Int` (Python integers are unbounded).
* `state['teams']` is `Dict[str, Dict[str, int]]` but, per the source comment,
  each team dict holds only the `'budget'` key; it is modelled as an
  association list `List (String × Int)` from team name to budget, in
  insertion order.  Python `dict` keys are unique; theorems that need this
  take a `Nodup` hypothesis on the key list.
* A transfer offer (the JSON object `transfer_proposal` produced by a team
  agent) is the structure `Offer`.
* External effects are modelled as data: the message list records the
  `HumanMessage` contents produced by `execute_transfer`; the episode added
  to the external graph store by `execute_transfer` always accompanies that
  message and is not modelled separately.  The `${price:,}` thousands
  separators of the Python f-string are elided from the message text.
* The LLM calls are opaque external collaborators; their outputs (the
  generated event text and each team agent's parsed decision) are oracle
  parameters of the graph-level functions.
-/

/-- A transfer proposal, as produced by a team agent
(`transfer_proposal` JSON object in `team_agent_function`):
`{to_team, from_team, player_name, proposed_price}`. -/
structure Offer where
  player_name : String
  from_team : String
  to_team : String
  proposed_price : Int
deriving Repr, DecidableEq

/-- The langgraph simulation state (`SimulationState` TypedDict).
`messages` and `transfer_offers` are `Annotated[..., operator.add]`
channels in the source; the reducer semantics appear in the
graph-level `*_step` functions below. -/
structure SimulationState where
  messages : List String
  teams : List (String × Int)
  event : String
  transfer_offers : List Offer
  current_iteration : Nat
  all_events : List String
  max_iterations : Nat
deriving Repr, DecidableEq

/-- Lookup of a team's budget: `state['teams'][name]['budget']`,
`none` when `name not in state['teams']`. -/
def lookupTeam : List (String × Int) → String → Option Int
  | [], _ => none
  | (k, v) :: rest, name => if k = name then some v else lookupTeam rest name

/-- `name in state['teams']` membership test. -/
def hasTeam (ts : List (String × Int)) (name : String) : Bool :=
  (lookupTeam ts name).isSome

/-- `state['teams'][name]['budget'] += d`: add `d` to the budget stored
under `name` (a no-op when the key is absent, which the source guards
against before calling). -/
def adjustTeam (ts : List (String × Int)) (name : String) (d : Int) :
    List (String × Int) :=
  ts.map (fun p => if p.1 = name then (p.1, p.2 + d) else p)

/-- The message content produced by `execute_transfer`
(`Transfer executed: {player} moved from {from} to {to} for ${price}`). -/
def transferMsg (o : Offer) : String :=
  "Transfer executed: " ++ o.player_name ++ " moved from " ++ o.from_team ++
    " to " ++ o.to_team ++ " for $" ++ toString o.proposed_price

/-- One iteration of the `for player, offers in offers_by_player.items()`
loop body of `process_transfers`, applied to the already-selected best
offer: `execute_transfer` is invoked (its message is appended
unconditionally), then the budgets are moved only if both named teams are
keys of `state['teams']`; otherwise a warning is logged and the budgets
are untouched. -/
def applyOffer (s : SimulationState) (o : Offer) : SimulationState :=
  let s1 := { s with messages := s.messages ++ [transferMsg o] }
  if hasTeam s1.teams o.from_team && hasTeam s1.teams o.to_team then
    { s1 with
      teams := adjustTeam (adjustTeam s1.teams o.from_team o.proposed_price)
        o.to_team (-o.proposed_price) }
  else s1

/-- Python `max(offers, key=f)` over `best :: rest`: scans left to right and
replaces the current best only on a strictly greater key, so the first
maximal element wins ties. -/
def maxBy (f : Offer → Int) : Offer → List Offer → Offer
  | best, [] => best
  | best, o :: rest => maxBy f (if f o > f best then o else best) rest

/-- `max(offers, key=lambda x: x['proposed_price'])` on a group
(`none` on an empty group, which cannot arise from the grouping). -/
def bestOfGroup : List Offer → Option Offer
  | [] => none
  | o :: rest => some (maxBy (fun x => x.proposed_price) o rest)

/-- The keys of `offers_by_player` in Python dict insertion order:
each player name in order of first occurrence. -/
def groupKeys (offers : List Offer) : List String :=
  offers.foldl
    (fun ks o => if o.player_name ∈ ks then ks else ks ++ [o.player_name]) []

/-- The group `offers_by_player[p]`: the offers for player `p` in
collection order. -/
def groupOf (offers : List Offer) (p : String) : List Offer :=
  offers.filter (fun o => o.player_name == p)

/-- One group iteration of `process_transfers`: pick the best offer of the
group and apply it. -/
def processGroup (s : SimulationState) (g : List Offer) : SimulationState :=
  match bestOfGroup g with
  | none => s
  | some best => applyOffer s best

/-- `process_transfers` (local function semantics, lines 337–383):
early return on an empty offer list; otherwise group offers by player,
apply the best offer of each group, then set `state['transfer_offers']`
to `[]` locally. -/
def process_transfers (s : SimulationState) : SimulationState :=
  if s.transfer_offers.isEmpty then s
  else
    let s1 :=
      ((groupKeys s.transfer_offers).map
        (fun p => groupOf s.transfer_offers p)).foldl processGroup s
    { s1 with transfer_offers := [] }

/-- The offers whose transfers `process_transfers` applies, in group order:
the best offer of each player group. -/
def selectedOffers (offers : List Offer) : List Offer :=
  (groupKeys offers).filterMap (fun p => bestOfGroup (groupOf offers p))

/-- Same, accounting for the early return on an empty offer list. -/
def appliedOffers (s : SimulationState) : List Offer :=
  if s.transfer_offers.isEmpty then [] else selectedOffers s.transfer_offers

/-- Total money held by the participants:
sum of all `['budget']` entries of `state['teams']`. -/
def teamsTotal (ts : List (String × Int)) : Int :=
  (ts.map Prod.snd).sum

/-- `m` is the proposal `process_transfers` selects from a group `l`:
a member of `l`, of maximal price, and strictly earlier than
every other maximal-price member (Python `max` keeps the first maximum). -/
def IsEarliestMax (f : Offer → Int) (l : List Offer) (m : Offer) : Prop :=
  m ∈ l ∧ (∀ x ∈ l, f x ≤ f m) ∧
    ∃ pre suf, l = pre ++ m :: suf ∧ ∀ x ∈ pre, f x < f m

/-!
## Graph-level semantics

`workflow = StateGraph(SimulationState)` declares `messages` and
`transfer_offers` as `Annotated[..., operator.add]` channels: a value a node
returns for such a key is *added* to the channel
(`channel := channel ++ returned`), never substituted, while the remaining
keys are plain last-value channels (`channel := returned`).  Each `*_step`
function below is the composite effect on the channels of running one node
and applying its returned dict under these reducers.  Consequences baked
into the definitions, faithful to the library semantics:

* a node that returns the whole state dict (as `simulate_event` and
  `process_transfers` do) re-adds the message list it received, so the
  messages channel doubles;
* `process_transfers` mutates its local `state['messages']` list in place
  via `extend` before returning it, so the doubled list already contains
  the new transfer messages;
* returning `'transfer_offers': []` is a no-op append: the offers channel
  is never cleared by any node.

`state['all_events']` is absent from the initial input; the
`state['all_events'] or []` guard in `simulate_event` makes the missing
value behave as the empty list, which is how `all_events` is modelled.
The `recursion_limit` passed to `app.ainvoke` is not modelled.
-/

/-- Channel effect of the `simulate_event` node (lines 409–426), given the
event text `e` produced by the simulator LLM: it returns the full state
dict with a fresh event, the event appended to `all_events`, an (ineffective)
`'transfer_offers': []`, and `current_iteration + 1`. -/
def simulate_event_step (e : String) (c : SimulationState) : SimulationState :=
  { c with
    messages := c.messages ++ c.messages
    event := e
    all_events := c.all_events ++ [e]
    current_iteration := c.current_iteration + 1 }

/-- Channel effect of the `process_event` node (lines 328–334): it returns
the full state dict with `'messages': ["Event processed: ..."]` (added to
the channel) and an ineffective `'transfer_offers': []`. -/
def process_event_step (c : SimulationState) : SimulationState :=
  { c with messages := c.messages ++ ["Event processed: " ++ c.event] }

/-- The hardcoded roster (`valid_teams`, line 435). -/
def valid_teams : List String :=
  ["Toronto Raptors", "Boston Celtics", "Golden State Warriors"]

/-- Validation in `team_agent_function` (lines 287–300): `decision` is the
agent LLM's parsed output (`none` when the JSON has no `transfer_proposal`
key).  A proposal naming a `to_team` or `from_team` outside `vts` is
dropped with a warning; the returned list is the node's
`'transfer_offers'` contribution. -/
def team_agent_offers (vts : List String) (decision : Option Offer) :
    List Offer :=
  match decision with
  | none => []
  | some o =>
    if o.to_team ∉ vts ∨ o.from_team ∉ vts then [] else [o]

/-- Channel effect of the superstep running the three `agent_{team}` nodes
(`ds` maps a team name to its LLM decision): each node returns only a
`'transfer_offers'` contribution, and the writes are applied to the
channel in roster (node-insertion) order. -/
def agents_step (ds : String → Option Offer) (c : SimulationState) :
    SimulationState :=
  { c with
    transfer_offers :=
      valid_teams.foldl
        (fun acc t => acc ++ team_agent_offers valid_teams (ds t))
        c.transfer_offers }

/-- Channel effect of the `process_transfers` node: the local function runs
on the channel snapshot, then its full returned dict is applied —
`teams` is overwritten, the in-place-extended `messages` list is re-added
(doubling it), and the returned `'transfer_offers'` (the old channel list
on the early return, `[]` otherwise) appends nothing, leaving the offers
channel unchanged. -/
def process_transfers_step (c : SimulationState) : SimulationState :=
  let l := process_transfers c
  { l with
    messages := l.messages ++ l.messages
    transfer_offers := c.transfer_offers }

/-- `routing_function` (lines 452–456): halt when
`current_iteration >= max_iterations`, else loop to `simulate_event`. -/
def routing_function (c : SimulationState) : Bool :=
  decide (c.current_iteration ≥ c.max_iterations)

/-- One full turn of the graph:
`simulate_event → process_event → (three agents) → process_transfers`. -/
def run_turn (e : String) (ds : String → Option Offer)
    (c : SimulationState) : SimulationState :=
  process_transfers_step (agents_step ds (process_event_step
    (simulate_event_step e c)))

/-- The graph loop: run a turn, halt if `routing_function` says so, else
loop.  The source loop is bounded only by `routing_function` (and the
unmodelled `recursion_limit`); `fuel` makes the recursion structural, and
`fuel = max_iterations` is enough to never be exhausted before
`routing_function` halts when starting from `current_iteration = 0`
(proved in `run_steps_current_iteration` below).  The oracle `ev` gives
the simulator LLM's event text for each turn and `ds` each team agent's
decision, both indexed by the pre-turn iteration counter. -/
def run_steps (ev : Nat → String) (ds : Nat → String → Option Offer) :
    Nat → SimulationState → SimulationState
  | fuel, c =>
    let c2 := run_turn (ev c.current_iteration) (ds c.current_iteration) c
    if routing_function c2 then c2
    else
      match fuel with
      | 0 => c2
      | f + 1 => run_steps ev ds f c2

/-- `app.ainvoke(initial_state)`: the graph enters `simulate_event`
unconditionally from `START` and then loops under `routing_function`. -/
def app_ainvoke (ev : Nat → String) (ds : Nat → String → Option Offer)
    (c : SimulationState) : SimulationState :=
  run_steps ev ds c.max_iterations c

/-- The initial state built in `run_simulation` (lines 473–484) for a given
iteration count (`all_events`, unset in the source dict, behaves as `[]`
per the `or []` guard in `simulate_event`). -/
def initialState (n : Nat) : SimulationState :=
  { messages := []
    teams := [("Toronto Raptors", 100000000), ("Boston Celtics", 100000000),
      ("Golden State Warriors", 100000000)]
    event := ""
    transfer_offers := []
    current_iteration := 0
    all_events := []
    max_iterations := n }

/-- A proposal is stale when the proposing side's `from_team` is no longer
the player's current owner.  Modelled from the spec: resource ownership
(§3 "Resource", §4.1 `OwnershipMismatch`) lives in the external knowledge
graph; `SimulationState` records no owner for any player, so ownership is
an arbitrary external assignment `owner` that the simulation code never
consults. -/
def IsStale (owner : String → String) (o : Offer) : Prop :=
  owner o.player_name ≠ o.from_team

/-!
## Concrete inputs used by counterexamples and witnesses
-/

/-- A self-transfer offer: the buying and selling team coincide. -/
def c2_offer : Offer := ⟨"P2", "Boston Celtics", "Boston Celtics", 5⟩

/-- A state whose only collected proposal is the self-transfer
`c2_offer`, with its (single) named team in the roster. -/
def c2_state : SimulationState :=
  { messages := [], teams := [("Boston Celtics", 100)], event := ""
    transfer_offers := [c2_offer], current_iteration := 0
    all_events := [], max_iterations := 1 }

/-- A well-formed offer between two distinct roster teams, used to
instantiate general theorems. -/
def offerR : Offer := ⟨"R", "Toronto Raptors", "Boston Celtics", 30⟩

/-- A state with the three-team roster and the single collected offer
`offerR`, used to instantiate general theorems. -/
def demo_state : SimulationState :=
  { messages := []
    teams := [("Toronto Raptors", 100), ("Boston Celtics", 100),
      ("Golden State Warriors", 100)]
    event := ""
    transfer_offers := [offerR]
    current_iteration := 0, all_events := [], max_iterations := 1 }

/-- The offer proposed on turn 1 in the carried-over-offers run. -/
def c5_offer : Offer := ⟨"Player X", "Boston Celtics", "Toronto Raptors", 10⟩

/-- Decision oracle: on turn 1 (pre-turn counter 0) the Toronto agent
proposes `c5_offer`; afterwards every agent does nothing. -/
def c5_ds : Nat → String → Option Offer :=
  fun n t => if n = 0 ∧ t = "Toronto Raptors" then some c5_offer else none

/-- An offer whose selling team is not a key of the team table. -/
def c6_offer : Offer := ⟨"P6", "Golden State Warriors", "Boston Celtics", 7⟩

/-- A state whose only proposal names a selling team outside the team
table, so its budget movement fails. -/
def c6_state : SimulationState :=
  { messages := [], teams := [("Boston Celtics", 100)], event := ""
    transfer_offers := [c6_offer], current_iteration := 0
    all_events := [], max_iterations := 1 }

/-- Offer for player `"X"` whose selling team is unknown to the team
table of `c7_state`. -/
def c7_offer_bad : Offer := ⟨"X", "Golden State Warriors", "Boston Celtics", 5⟩

/-- A well-formed competing offer for a different player `"Y"`. -/
def c7_offer_good : Offer := ⟨"Y", "Boston Celtics", "Toronto Raptors", 7⟩

/-- A state collecting one transfer naming an unknown participant and one
well-formed transfer for another player. -/
def c7_state : SimulationState :=
  { messages := []
    teams := [("Toronto Raptors", 100), ("Boston Celtics", 100)]
    event := ""
    transfer_offers := [c7_offer_bad, c7_offer_good]
    current_iteration := 0, all_events := [], max_iterations := 1 }

/-- External ownership assignment under which every player is owned by the
Toronto Raptors. -/
def c8_owner : String → String := fun _ => "Toronto Raptors"

/-- An offer to buy player `"X"` from the Boston Celtics — stale under
`c8_owner`, which records Toronto as the owner of `"X"`. -/
def c8_offer : Offer := ⟨"X", "Boston Celtics", "Golden State Warriors", 7⟩

/-- A three-team state whose only collected proposal is the stale
`c8_offer`. -/
def c8_state : SimulationState :=
  { messages := []
    teams := [("Toronto Raptors", 100), ("Boston Celtics", 100),
      ("Golden State Warriors", 100)]
    event := ""
    transfer_offers := [c8_offer]
    current_iteration := 0, all_events := [], max_iterations := 1 }

/-- A proposal naming a buying team outside the valid roster. -/
def c9_offer : Offer := ⟨"P9", "Boston Celtics", "Los Angeles Lakers", 9⟩

/-- A self-transfer proposal whose (single) named team is in the valid
roster. -/
def c10_offer : Offer := ⟨"P10", "Boston Celtics", "Boston Celtics", 5⟩

/-!
## Basic lemmas about `applyOffer` and `process_transfers`
-/

theorem applyOffer_messages (s : SimulationState) (o : Offer) :
    (applyOffer s o).messages = s.messages ++ [transferMsg o] := by
  unfold applyOffer
  dsimp only
  split <;> rfl

theorem applyOffer_teams (s : SimulationState) (o : Offer) :
    (applyOffer s o).teams =
      if hasTeam s.teams o.from_team && hasTeam s.teams o.to_team then
        adjustTeam (adjustTeam s.teams o.from_team o.proposed_price)
          o.to_team (-o.proposed_price)
      else s.teams := by
  unfold applyOffer
  dsimp only
  split <;> simp_all

@[simp]
theorem applyOffer_current_iteration (s : SimulationState) (o : Offer) :
    (applyOffer s o).current_iteration = s.current_iteration := by
  unfold applyOffer; dsimp only; split <;> rfl

@[simp]
theorem applyOffer_max_iterations (s : SimulationState) (o : Offer) :
    (applyOffer s o).max_iterations = s.max_iterations := by
  unfold applyOffer; dsimp only; split <;> rfl

@[simp]
theorem applyOffer_event (s : SimulationState) (o : Offer) :
    (applyOffer s o).event = s.event := by
  unfold applyOffer; dsimp only; split <;> rfl

@[simp]
theorem applyOffer_all_events (s : SimulationState) (o : Offer) :
    (applyOffer s o).all_events = s.all_events := by
  unfold applyOffer; dsimp only; split <;> rfl

@[simp]
theorem applyOffer_transfer_offers (s : SimulationState) (o : Offer) :
    (applyOffer s o).transfer_offers = s.transfer_offers := by
  unfold applyOffer; dsimp only; split <;> rfl

theorem foldl_map_processGroup (G : String → List Offer) :
    ∀ (ks : List String) (s : SimulationState),
      (ks.map G).foldl processGroup s =
        (ks.filterMap (fun k => bestOfGroup (G k))).foldl applyOffer s := by
  intro ks
  induction ks with
  | nil => intro s; rfl
  | cons k ks ih =>
      intro s
      simp only [List.map_cons, List.foldl_cons, List.filterMap_cons]
      cases h : bestOfGroup (G k) with
      | none => simp only [processGroup, h]; exact ih s
      | some b =>
          simp only [processGroup, h, List.foldl_cons]
          exact ih (applyOffer s b)

/-- `process_transfers` applies exactly the best offer of each player
group, in group order, and ends with an empty local offer list. -/
theorem process_transfers_eq (s : SimulationState) :
    process_transfers s =
      { (appliedOffers s).foldl applyOffer s with transfer_offers := [] } := by
  by_cases h : s.transfer_offers.isEmpty
  · have h' : s.transfer_offers = [] := List.isEmpty_iff.mp h
    simp only [process_transfers, appliedOffers, h, if_pos, List.foldl_nil]
    cases s
    simp_all
  · simp only [process_transfers, appliedOffers, selectedOffers, h,
      if_neg, Bool.false_eq_true, not_false_iff, foldl_map_processGroup]

@[simp]
theorem foldl_applyOffer_current_iteration :
    ∀ (l : List Offer) (s : SimulationState),
      (l.foldl applyOffer s).current_iteration = s.current_iteration := by
  intro l
  induction l with
  | nil => intro s; rfl
  | cons o l ih => intro s; simp [ih]

@[simp]
theorem foldl_applyOffer_max_iterations :
    ∀ (l : List Offer) (s : SimulationState),
      (l.foldl applyOffer s).max_iterations = s.max_iterations := by
  intro l
  induction l with
  | nil => intro s; rfl
  | cons o l ih => intro s; simp [ih]

@[simp]
theorem process_transfers_current_iteration (s : SimulationState) :
    (process_transfers s).current_iteration = s.current_iteration := by
  rw [process_transfers_eq]
  simp

@[simp]
theorem process_transfers_max_iterations (s : SimulationState) :
    (process_transfers s).max_iterations = s.max_iterations := by
  rw [process_transfers_eq]
  simp

/-!
## Selection lemmas: Python `max` keeps the earliest maximum
-/

theorem maxBy_mem (f : Offer → Int) :
    ∀ (l : List Offer) (b : Offer), maxBy f b l ∈ b :: l := by
  intro l
  induction l with
  | nil => intro b; simp [maxBy]
  | cons o rest ih =>
      intro b
      rw [maxBy]
      by_cases h : f o > f b
      · simp only [h, if_pos]
        have := ih o
        rcases List.mem_cons.mp this with h1 | h1
        · simp [h1]
        · simp [List.mem_cons, h1]
      · simp only [h, if_neg, not_false_iff]
        have := ih b
        rcases List.mem_cons.mp this with h1 | h1
        · simp [h1]
        · simp [List.mem_cons, h1]

theorem maxBy_le (f : Offer → Int) :
    ∀ (l : List Offer) (b : Offer), ∀ x ∈ b :: l, f x ≤ f (maxBy f b l) := by
  intro l
  induction l with
  | nil =>
      intro b x hx
      rcases List.mem_cons.mp hx with h | h
      · subst h; simp [maxBy]
      · simp at h
  | cons o rest ih =>
      intro b x hx
      rw [maxBy]
      by_cases h : f o > f b
      · simp only [h, if_pos]
        rcases List.mem_cons.mp hx with h1 | h1
        · subst h1
          calc f x ≤ f o := le_of_lt h
            _ ≤ f (maxBy f o rest) := ih o o (List.mem_cons_self o rest)
        · exact ih o x h1
      · simp only [h, if_neg, not_false_iff]
        rcases List.mem_cons.mp hx with h1 | h1
        · rw [h1]; exact ih b b (List.mem_cons_self b rest)
        · rcases List.mem_cons.mp h1 with h2 | h2
          · subst h2
            calc f x ≤ f b := le_of_not_lt h
              _ ≤ f (maxBy f b rest) := ih b b (List.mem_cons_self b rest)
          · exact ih b x (List.mem_cons_of_mem b h2)

theorem maxBy_earliest (f : Offer → Int) :
    ∀ (l : List Offer) (b : Offer),
      ∃ pre suf, b :: l = pre ++ maxBy f b l :: suf ∧
        ∀ x ∈ pre, f x < f (maxBy f b l) := by
  intro l
  induction l with
  | nil =>
      intro b
      exact ⟨[], [], by simp [maxBy], by simp⟩
  | cons o rest ih =>
      intro b
      rw [maxBy]
      by_cases h : f o > f b
      · simp only [h, if_pos]
        obtain ⟨pre, suf, hdec, hlt⟩ := ih o
        refine ⟨b :: pre, suf, by simp [hdec], ?_⟩
        intro x hx
        rcases List.mem_cons.mp hx with h1 | h1
        · rw [h1]
          calc f b < f o := h
            _ ≤ f (maxBy f o rest) := maxBy_le f rest o o
              (List.mem_cons_self o rest)
        · exact hlt x h1
      · simp only [h, if_neg, not_false_iff]
        obtain ⟨pre, suf, hdec, hlt⟩ := ih b
        cases pre with
        | nil =>
            simp only [List.nil_append] at hdec
            have hb : b = maxBy f b rest := (List.cons_eq_cons.mp hdec).1
            refine ⟨[], o :: rest, by rw [List.nil_append, ← hb], by simp⟩
        | cons p pre1 =>
            have hbp : b = p := (List.cons_eq_cons.mp hdec).1
            have hrest : rest = pre1 ++ maxBy f b rest :: suf :=
              (List.cons_eq_cons.mp hdec).2
            have hbm : f b < f (maxBy f b rest) := by
              apply hlt
              rw [← hbp]; exact List.mem_cons_self b pre1
            refine ⟨b :: o :: pre1, suf,
              by simp only [List.cons_append]; rw [← hrest], ?_⟩
            intro x hx
            rcases List.mem_cons.mp hx with h1 | h1
            · rw [h1]; exact hbm
            · rcases List.mem_cons.mp h1 with h2 | h2
              · rw [h2]
                calc f o ≤ f b := le_of_not_lt h
                  _ < f (maxBy f b rest) := hbm
              · exact hlt x (List.mem_cons_of_mem p h2)

/-- The offer `bestOfGroup` returns is the earliest among the
maximal-price offers of the group. -/
theorem bestOfGroup_isEarliestMax (g : List Offer) (m : Offer)
    (h : bestOfGroup g = some m) :
    IsEarliestMax (fun x => x.proposed_price) g m := by
  cases g with
  | nil => simp [bestOfGroup] at h
  | cons o rest =>
      simp only [bestOfGroup, Option.some.injEq] at h
      subst h
      refine ⟨maxBy_mem _ rest o, maxBy_le _ rest o, maxBy_earliest _ rest o⟩

/-!
## Grouping lemmas
-/

theorem mem_groupOf (offers : List Offer) (p : String) (x : Offer) :
    x ∈ groupOf offers p ↔ x ∈ offers ∧ x.player_name = p := by
  simp [groupOf, List.mem_filter]

theorem groupKeys_nodup_aux :
    ∀ (offers : List Offer) (acc : List String), acc.Nodup →
      (offers.foldl
        (fun ks o => if o.player_name ∈ ks then ks else ks ++ [o.player_name])
        acc).Nodup := by
  intro offers
  induction offers with
  | nil => intro acc h; exact h
  | cons o rest ih =>
      intro acc h
      simp only [List.foldl_cons]
      by_cases hmem : o.player_name ∈ acc
      · simp only [hmem, if_pos]
        exact ih acc h
      · simp only [hmem, if_neg, not_false_iff]
        apply ih
        simp [List.nodup_append, h, hmem]

theorem groupKeys_nodup (offers : List Offer) : (groupKeys offers).Nodup :=
  groupKeys_nodup_aux offers [] List.nodup_nil

theorem bestOfGroup_groupOf_name (offers : List Offer) (k : String)
    (o : Offer) (h : bestOfGroup (groupOf offers k) = some o) :
    o.player_name = k := by
  have hmem : o ∈ groupOf offers k := (bestOfGroup_isEarliestMax _ _ h).1
  exact ((mem_groupOf offers k o).mp hmem).2

theorem bestOfGroup_groupOf_mem (offers : List Offer) (k : String)
    (o : Offer) (h : bestOfGroup (groupOf offers k) = some o) :
    o ∈ offers := by
  have hmem : o ∈ groupOf offers k := (bestOfGroup_isEarliestMax _ _ h).1
  exact ((mem_groupOf offers k o).mp hmem).1

/-- A filter-map over distinct player names contributes at most one offer
named `p`, since the offer produced for key `k` is named `k`. -/
theorem filterMap_keyed_count (p : String) (F : String → Option Offer)
    (hF : ∀ k o, F k = some o → o.player_name = k) :
    ∀ ks : List String, ks.Nodup →
      ((ks.filterMap F).filter (fun o => o.player_name == p)).length ≤ 1 := by
  intro ks
  induction ks with
  | nil => intro _; simp
  | cons k ks ih =>
      intro hnd
      have hk : k ∉ ks := (List.nodup_cons.mp hnd).1
      have hnd' : ks.Nodup := (List.nodup_cons.mp hnd).2
      simp only [List.filterMap_cons]
      cases hFk : F k with
      | none => exact ih hnd'
      | some o =>
          have hname : o.player_name = k := hF k o hFk
          by_cases hp : o.player_name = p
          · have hkp : k = p := hname ▸ hp
            simp only [List.filter_cons, hp, beq_self_eq_true, if_pos]
            have hrest :
                ((ks.filterMap F).filter
                  (fun o => o.player_name == p)).length = 0 := by
              rw [List.length_eq_zero]
              rw [List.filter_eq_nil_iff]
              intro x hx
              obtain ⟨k2, hk2, hFk2⟩ := List.mem_filterMap.mp hx
              have : x.player_name = k2 := hF k2 x hFk2
              simp only [beq_iff_eq, this]
              intro hkp2
              exact hk (by rw [hkp, ← hkp2]; exact hk2)
            simp [hrest]
          · simp only [List.filter_cons, beq_iff_eq, hp, if_neg, if_false]
            exact ih hnd'

/-!
## Team-table (Ledger) lemmas
-/

theorem adjustTeam_cons (k1 : String) (v : Int) (rest : List (String × Int))
    (k : String) (d : Int) :
    adjustTeam ((k1, v) :: rest) k d =
      (if k1 = k then (k1, v + d) else (k1, v)) :: adjustTeam rest k d := by
  by_cases h : k1 = k <;> simp [adjustTeam, h]

theorem lookupTeam_cons (k1 : String) (v : Int) (rest : List (String × Int))
    (name : String) :
    lookupTeam ((k1, v) :: rest) name =
      if k1 = name then some v else lookupTeam rest name := rfl

theorem lookupTeam_adjust_self (ts : List (String × Int)) (k : String)
    (d : Int) :
    lookupTeam (adjustTeam ts k d) k = (lookupTeam ts k).map (· + d) := by
  induction ts with
  | nil => rfl
  | cons kv rest ih =>
      obtain ⟨k1, v⟩ := kv
      rw [adjustTeam_cons]
      by_cases h : k1 = k
      · subst h
        rw [if_pos rfl, lookupTeam_cons, lookupTeam_cons, if_pos rfl,
          if_pos rfl]
        rfl
      · rw [if_neg h, lookupTeam_cons, lookupTeam_cons, if_neg h, if_neg h]
        exact ih

theorem lookupTeam_adjust_other (ts : List (String × Int)) (k k2 : String)
    (d : Int) (h : k2 ≠ k) :
    lookupTeam (adjustTeam ts k d) k2 = lookupTeam ts k2 := by
  induction ts with
  | nil => rfl
  | cons kv rest ih =>
      obtain ⟨k1, v⟩ := kv
      rw [adjustTeam_cons]
      by_cases h1 : k1 = k
      · subst h1
        have h2 : ¬(k1 = k2) := fun hc => h (hc.symm)
        rw [if_pos rfl, lookupTeam_cons, lookupTeam_cons, if_neg h2,
          if_neg h2]
        exact ih
      · rw [if_neg h1, lookupTeam_cons, lookupTeam_cons]
        by_cases h2 : k1 = k2
        · rw [if_pos h2, if_pos h2]
        · rw [if_neg h2, if_neg h2]
          exact ih

theorem adjustTeam_keys (ts : List (String × Int)) (k : String) (d : Int) :
    (adjustTeam ts k d).map Prod.fst = ts.map Prod.fst := by
  induction ts with
  | nil => rfl
  | cons kv rest ih =>
      obtain ⟨k1, v⟩ := kv
      by_cases h : k1 = k <;>
        simp only [adjustTeam, List.map_cons, h, if_pos, if_neg,
          not_false_iff] <;>
        simpa [adjustTeam] using ih

theorem adjustTeam_of_not_mem (ts : List (String × Int)) (k : String)
    (d : Int) (h : k ∉ ts.map Prod.fst) : adjustTeam ts k d = ts := by
  induction ts with
  | nil => rfl
  | cons kv rest ih =>
      obtain ⟨k1, v⟩ := kv
      simp only [List.map_cons, List.mem_cons, not_or] at h
      have h1 : ¬(k1 = k) := fun hc => h.1 hc.symm
      simp only [adjustTeam, List.map_cons, h1, if_neg, not_false_iff]
      rw [show rest.map (fun p => if p.1 = k then (p.1, p.2 + d) else p) =
        adjustTeam rest k d from rfl, ih h.2]

theorem lookupTeam_isSome_mem (ts : List (String × Int)) (k : String)
    (h : (lookupTeam ts k).isSome) : k ∈ ts.map Prod.fst := by
  induction ts with
  | nil => simp [lookupTeam] at h
  | cons kv rest ih =>
      obtain ⟨k1, v⟩ := kv
      by_cases h1 : k1 = k
      · simp [h1]
      · simp only [lookupTeam, h1, if_neg, not_false_iff] at h
        simp [List.mem_cons, ih h]

theorem teamsTotal_adjust (ts : List (String × Int)) (k : String) (d : Int)
    (hnd : (ts.map Prod.fst).Nodup) (h : (lookupTeam ts k).isSome) :
    teamsTotal (adjustTeam ts k d) = teamsTotal ts + d := by
  induction ts with
  | nil => simp [lookupTeam] at h
  | cons kv rest ih =>
      obtain ⟨k1, v⟩ := kv
      simp only [List.map_cons, List.nodup_cons] at hnd
      by_cases h1 : k1 = k
      · have hk : k ∉ rest.map Prod.fst := h1 ▸ hnd.1
        simp only [adjustTeam, List.map_cons, h1, if_pos]
        rw [show rest.map (fun p => if p.1 = k then (p.1, p.2 + d) else p) =
          adjustTeam rest k d from rfl, adjustTeam_of_not_mem rest k d hk]
        simp [teamsTotal]
        ring
      · simp only [lookupTeam, h1, if_neg, not_false_iff] at h
        simp only [adjustTeam, List.map_cons, h1, if_neg, not_false_iff]
        rw [show rest.map (fun p => if p.1 = k then (p.1, p.2 + d) else p) =
          adjustTeam rest k d from rfl]
        simp only [teamsTotal, List.map_cons, List.sum_cons] at *
        rw [ih hnd.2 h]
        ring

theorem applyOffer_teams_keys (s : SimulationState) (o : Offer) :
    (applyOffer s o).teams.map Prod.fst = s.teams.map Prod.fst := by
  rw [applyOffer_teams]
  split
  · rw [adjustTeam_keys, adjustTeam_keys]
  · rfl

theorem lookupTeam_adjust_isSome (ts : List (String × Int)) (k k2 : String)
    (d : Int) (h : (lookupTeam ts k2).isSome) :
    (lookupTeam (adjustTeam ts k d) k2).isSome := by
  by_cases hk : k2 = k
  · subst hk
    rw [lookupTeam_adjust_self]
    cases hx : lookupTeam ts k2 with
    | none => rw [hx] at h; simp at h
    | some v => rfl
  · rw [lookupTeam_adjust_other ts k k2 d hk]
    exact h

/-- One applied transfer conserves the total money: it credits and debits
the same price (a self-transfer nets to zero; a transfer failing the
roster check moves nothing). -/
theorem teamsTotal_applyOffer (s : SimulationState) (o : Offer)
    (hnd : (s.teams.map Prod.fst).Nodup) :
    teamsTotal (applyOffer s o).teams = teamsTotal s.teams := by
  rw [applyOffer_teams]
  split
  · rename_i hc
    have hf : (lookupTeam s.teams o.from_team).isSome := by
      have := (Bool.and_eq_true _ _).mp hc
      exact this.1
    have ht : (lookupTeam s.teams o.to_team).isSome := by
      have := (Bool.and_eq_true _ _).mp hc
      exact this.2
    have hnd2 : ((adjustTeam s.teams o.from_team o.proposed_price).map
        Prod.fst).Nodup := by rw [adjustTeam_keys]; exact hnd
    have ht2 : (lookupTeam (adjustTeam s.teams o.from_team o.proposed_price)
        o.to_team).isSome :=
      lookupTeam_adjust_isSome s.teams o.from_team o.to_team
        o.proposed_price ht
    rw [teamsTotal_adjust _ _ _ hnd2 ht2, teamsTotal_adjust _ _ _ hnd hf]
    ring
  · rfl

theorem foldl_applyOffer_teams_keys :
    ∀ (l : List Offer) (s : SimulationState),
      (l.foldl applyOffer s).teams.map Prod.fst = s.teams.map Prod.fst := by
  intro l
  induction l with
  | nil => intro s; rfl
  | cons o l ih =>
      intro s
      rw [List.foldl_cons, ih, applyOffer_teams_keys]

theorem foldl_applyOffer_teamsTotal :
    ∀ (l : List Offer) (s : SimulationState),
      (s.teams.map Prod.fst).Nodup →
      teamsTotal (l.foldl applyOffer s).teams = teamsTotal s.teams := by
  intro l
  induction l with
  | nil => intro s _; rfl
  | cons o l ih =>
      intro s hnd
      rw [List.foldl_cons, ih (applyOffer s o)
        (by rw [applyOffer_teams_keys]; exact hnd),
        teamsTotal_applyOffer s o hnd]

/-- The resolution step of a whole turn conserves the total money held by
the teams. -/
theorem teamsTotal_process_transfers (s : SimulationState)
    (hnd : (s.teams.map Prod.fst).Nodup) :
    teamsTotal (process_transfers s).teams = teamsTotal s.teams := by
  rw [process_transfers_eq]
  exact foldl_applyOffer_teamsTotal (appliedOffers s) s hnd

/-!
## Loop-counter lemmas
-/

@[simp]
theorem simulate_event_step_current_iteration (e : String)
    (c : SimulationState) :
    (simulate_event_step e c).current_iteration = c.current_iteration + 1 :=
  rfl

@[simp]
theorem run_turn_current_iteration (e : String) (ds : String → Option Offer)
    (c : SimulationState) :
    (run_turn e ds c).current_iteration = c.current_iteration + 1 := by
  simp [run_turn, process_transfers_step, agents_step, process_event_step,
    simulate_event_step]

@[simp]
theorem run_turn_max_iterations (e : String) (ds : String → Option Offer)
    (c : SimulationState) :
    (run_turn e ds c).max_iterations = c.max_iterations := by
  simp [run_turn, process_transfers_step, agents_step, process_event_step,
    simulate_event_step]

/-- With enough fuel, the loop halts with the counter at
`max max_iterations (start + 1)`: every run executes at least one turn
(the graph enters `simulate_event` unconditionally) and otherwise stops
at exactly `max_iterations`. -/
theorem run_steps_current_iteration (ev : Nat → String)
    (ds : Nat → String → Option Offer) :
    ∀ (fuel : Nat) (c : SimulationState),
      c.max_iterations ≤ fuel + c.current_iteration + 1 →
      (run_steps ev ds fuel c).current_iteration =
        max c.max_iterations (c.current_iteration + 1) ∧
      (run_steps ev ds fuel c).max_iterations = c.max_iterations := by
  intro fuel
  induction fuel with
  | zero =>
      intro c hle
      rw [run_steps]
      have hroute : routing_function
          (run_turn (ev c.current_iteration) (ds c.current_iteration) c) =
            true := by
        simp only [routing_function, run_turn_current_iteration,
          run_turn_max_iterations, ge_iff_le, decide_eq_true_eq]
        omega
      simp only [hroute, if_pos, run_turn_current_iteration,
        run_turn_max_iterations]
      refine ⟨by omega, by trivial⟩
  | succ f ih =>
      intro c hle
      rw [run_steps]
      by_cases hroute : routing_function
          (run_turn (ev c.current_iteration) (ds c.current_iteration) c) =
            true
      · simp only [hroute, if_pos, run_turn_current_iteration,
          run_turn_max_iterations]
        simp only [routing_function, run_turn_current_iteration,
          run_turn_max_iterations, ge_iff_le, decide_eq_true_eq] at hroute
        refine ⟨by omega, by trivial⟩
      · simp only [hroute, if_neg, Bool.not_eq_true]
        simp only [routing_function, run_turn_current_iteration,
          run_turn_max_iterations, ge_iff_le, decide_eq_true_eq,
          Bool.not_eq_true, decide_eq_false_iff_not, not_le] at hroute
        obtain ⟨h1, h2⟩ := ih
          (run_turn (ev c.current_iteration) (ds c.current_iteration) c)
          (by simp only [run_turn_current_iteration,
            run_turn_max_iterations]; omega)
        simp only [run_turn_current_iteration, run_turn_max_iterations] at h1 h2
        constructor
        · rw [h1]; omega
        · rw [h2]

/-!
## Claim theorems
-/

/-- C1: in every turn the resolution step applies at most one transfer per
contested player, namely the collected proposal for that player with the
maximum `proposed_price`; on a price tie the proposal appearing earliest in
the collection-order list wins, deterministically (`max` keeps the first
maximum).  The first conjunct ties the selection to `process_transfers`:
the step is exactly a fold of single-transfer applications over the
selected offers. -/
theorem c1_at_most_one_earliest_max_transfer (s : SimulationState)
    (p : String) :
    process_transfers s =
      { (appliedOffers s).foldl applyOffer s with transfer_offers := [] } ∧
    ((appliedOffers s).filter (fun o => o.player_name == p)).length ≤ 1 ∧
    ∀ o ∈ appliedOffers s,
      o ∈ s.transfer_offers ∧
      IsEarliestMax (fun x => x.proposed_price)
        (groupOf s.transfer_offers o.player_name) o := by
  refine ⟨process_transfers_eq s, ?_, ?_⟩
  · unfold appliedOffers
    split
    · simp
    · unfold selectedOffers
      exact filterMap_keyed_count p _
        (fun k o h => bestOfGroup_groupOf_name _ k o h)
        (groupKeys s.transfer_offers) (groupKeys_nodup s.transfer_offers)
  · intro o ho
    unfold appliedOffers at ho
    split at ho
    · simp at ho
    · unfold selectedOffers at ho
      obtain ⟨k, hk, hbest⟩ := List.mem_filterMap.mp ho
      have hname := bestOfGroup_groupOf_name _ k o hbest
      refine ⟨bestOfGroup_groupOf_mem _ k o hbest, ?_⟩
      rw [hname]
      exact bestOfGroup_isEarliestMax _ o hbest

theorem c1_at_most_one_earliest_max_transfer_witness :
    ((appliedOffers demo_state).filter
      (fun o => o.player_name == "R")).length ≤ 1 :=
  (c1_at_most_one_earliest_max_transfer demo_state "R").2.1

/-- C2 counterexample: the collected self-transfer `c2_offer` names the
Boston Celtics as both buyer and seller; both named teams are in the
roster and the transfer is applied by the resolution step, yet the buying
team's balance does not decrease by the offered price (it is unchanged),
contradicting the claim that exactly one participant's balance decreases
by the price and another's increases. -/
theorem c2_self_transfer_refutes :
    hasTeam c2_state.teams c2_offer.from_team = true ∧
    hasTeam c2_state.teams c2_offer.to_team = true ∧
    appliedOffers c2_state = [c2_offer] ∧
    c2_offer.proposed_price = 5 ∧
    lookupTeam (process_transfers c2_state).teams c2_offer.to_team =
      some 100 ∧
    ¬ lookupTeam (process_transfers c2_state).teams c2_offer.to_team =
      some (100 - 5) := by decide

/-- C2 (amended): for every transfer applied with both named teams in the
roster *and the buying team distinct from the selling team*, the buyer is
debited by the price, the seller credited by it, every other balance is
untouched, and the sum of all balances is conserved across the whole
turn's resolution (the conservation holds even for self-transfers). -/
theorem c2_transfer_moves_price_conserves_total (s : SimulationState)
    (o : Offer) (bf bt : Int)
    (hnd : (s.teams.map Prod.fst).Nodup)
    (hne : o.from_team ≠ o.to_team)
    (hf : lookupTeam s.teams o.from_team = some bf)
    (ht : lookupTeam s.teams o.to_team = some bt) :
    lookupTeam (applyOffer s o).teams o.from_team =
      some (bf + o.proposed_price) ∧
    lookupTeam (applyOffer s o).teams o.to_team =
      some (bt - o.proposed_price) ∧
    (∀ t, t ≠ o.from_team → t ≠ o.to_team →
      lookupTeam (applyOffer s o).teams t = lookupTeam s.teams t) ∧
    teamsTotal (process_transfers s).teams = teamsTotal s.teams := by
  have hguard :
      (hasTeam s.teams o.from_team && hasTeam s.teams o.to_team) = true := by
    simp [hasTeam, hf, ht]
  have hteams : (applyOffer s o).teams =
      adjustTeam (adjustTeam s.teams o.from_team o.proposed_price)
        o.to_team (-o.proposed_price) := by
    rw [applyOffer_teams, if_pos hguard]
  refine ⟨?_, ?_, ?_, teamsTotal_process_transfers s hnd⟩
  · rw [hteams, lookupTeam_adjust_other _ _ _ _ hne,
      lookupTeam_adjust_self, hf]
    rfl
  · rw [hteams, lookupTeam_adjust_self,
      lookupTeam_adjust_other _ _ _ _ (Ne.symm hne), ht]
    simp [sub_eq_add_neg]
  · intro t htf htt
    rw [hteams, lookupTeam_adjust_other _ _ _ _ htt,
      lookupTeam_adjust_other _ _ _ _ htf]

theorem c2_transfer_moves_price_conserves_total_witness :
    lookupTeam (applyOffer demo_state offerR).teams "Toronto Raptors" =
      some (100 + 30) ∧
    lookupTeam (applyOffer demo_state offerR).teams "Boston Celtics" =
      some (100 - 30) ∧
    teamsTotal (process_transfers demo_state).teams =
      teamsTotal demo_state.teams := by
  have h := c2_transfer_moves_price_conserves_total demo_state offerR 100 100
    (by decide) (by decide) (by decide) (by decide)
  exact ⟨h.1, h.2.1, h.2.2.2⟩

/-- C3 counterexample: running the graph with `max_iterations = 0` (with
any fixed oracles) does not return the initial state — a full turn runs
first, leaving the counter at 1 — because the graph enters
`simulate_event` unconditionally from `START` and `routing_function` is
only consulted after `process_transfers`. -/
theorem c3_zero_iterations_not_initial :
    app_ainvoke (fun _ => "E") (fun _ _ => none) (initialState 0) ≠
      initialState 0 ∧
    (app_ainvoke (fun _ => "E") (fun _ _ => none)
      (initialState 0)).current_iteration = 1 := by
  decide

/-- C3 (amended): with `max_iterations = 0` the simulation executes
exactly one full turn — the run equals a single `run_turn` on the initial
state, and the returned counter is 1 — instead of the claimed zero turns
with the initial state unmodified. -/
theorem c3_zero_iterations_one_turn (ev : Nat → String)
    (ds : Nat → String → Option Offer) :
    app_ainvoke ev ds (initialState 0) =
      run_turn (ev 0) (ds 0) (initialState 0) ∧
    (app_ainvoke ev ds (initialState 0)).current_iteration = 1 := by
  have hroute :
      routing_function (run_turn (ev 0) (ds 0) (initialState 0)) = true := by
    simp [routing_function, initialState]
  have key : app_ainvoke ev ds (initialState 0) =
      run_turn (ev 0) (ds 0) (initialState 0) := by
    rw [app_ainvoke, run_steps.eq_def]
    simp [initialState, hroute]
  refine ⟨key, ?_⟩
  rw [key, run_turn_current_iteration]
  rfl

/-- C4 counterexample: in the run with `max_iterations = 0` the turn
counter ends at 1, strictly exceeding `max_iterations`, contradicting the
claimed bound. -/
theorem c4_counter_exceeds_zero_max :
    (app_ainvoke (fun _ => "E") (fun _ _ => none)
      (initialState 0)).current_iteration >
      (initialState 0).max_iterations := by
  decide

/-- C4 (amended): the counter starts at 0 and each executed turn increases
it by exactly 1; the run always executes at least one turn, so the final
(and hence maximal) counter value is `max n 1` — the counter never exceeds
`max_iterations` when `max_iterations ≥ 1`, but reaches 1 when
`max_iterations = 0`. -/
theorem c4_counter_monotone_bounded (e : String) (d : String → Option Offer)
    (c : SimulationState) (ev : Nat → String)
    (ds : Nat → String → Option Offer) (n : Nat) :
    (initialState n).current_iteration = 0 ∧
    (run_turn e d c).current_iteration = c.current_iteration + 1 ∧
    (app_ainvoke ev ds (initialState n)).current_iteration = max n 1 := by
  refine ⟨rfl, run_turn_current_iteration e d c, ?_⟩
  have h := run_steps_current_iteration ev ds n (initialState n)
    (by simp [initialState])
  simpa [app_ainvoke, initialState] using h.1

/-- C5: evaluation at the failing input.  With `max_iterations = 2` and a
single turn‑1 proposal, the `transfer_offers` channel still holds that
proposal after the turn's resolution step (returning
`'transfer_offers': []` is a no-op under the `operator.add` reducer), and
turn 2 re-processes the leftover proposal: the selling team is credited
twice (its budget after one turn is 100000010, after the full run
100000020), contradicting the claim that no proposal carries over. -/
theorem c5_offers_carry_over :
    (run_turn "E" (c5_ds 0) (initialState 2)).transfer_offers =
      [c5_offer] ∧
    lookupTeam (run_turn "E" (c5_ds 0)
      (initialState 2)).teams "Boston Celtics" = some 100000010 ∧
    lookupTeam (app_ainvoke (fun _ => "E") c5_ds
      (initialState 2)).teams "Boston Celtics" = some 100000020 := by
  decide

/-- C6 counterexample: the only collected proposal names a selling team
absent from the team table, so the budget movement fails — yet the
executed-transfer record (the `execute_transfer` message, emitted before
the roster check) is still applied, so a failed transfer is partially
observable, contradicting atomicity. -/
theorem c6_failed_transfer_leaves_record :
    hasTeam c6_state.teams c6_offer.from_team = false ∧
    (process_transfers c6_state).teams = c6_state.teams ∧
    (process_transfers c6_state).messages ≠ c6_state.messages ∧
    (process_transfers c6_state).messages =
      c6_state.messages ++ [transferMsg c6_offer] := by
  decide

/-- C6 (amended): the balance effect of a transfer is atomic — buyer and
seller budgets move together exactly when both named teams are in the
table, and neither moves otherwise — but the audit/message record of the
executed transfer is appended unconditionally, before the roster check,
so it is observable even when the transfer fails. -/
theorem c6_balance_atomic_record_unconditional (s : SimulationState)
    (o : Offer) :
    (applyOffer s o).messages = s.messages ++ [transferMsg o] ∧
    (applyOffer s o).teams =
      (if hasTeam s.teams o.from_team && hasTeam s.teams o.to_team then
        adjustTeam (adjustTeam s.teams o.from_team o.proposed_price)
          o.to_team (-o.proposed_price)
      else s.teams) :=
  ⟨applyOffer_messages s o, applyOffer_teams s o⟩

/-- C7 counterexample: a transfer naming a selling team unknown to the
team table does not abort the run — the resolution step returns normally,
the unknown-participant transfer is skipped with no balance change, the
other player group of the same turn is still resolved (Toronto 93,
Boston 107), and the local offer list is cleared. -/
theorem c7_unknown_participant_no_abort :
    hasTeam c7_state.teams c7_offer_bad.from_team = false ∧
    lookupTeam (process_transfers c7_state).teams "Toronto Raptors" =
      some 93 ∧
    lookupTeam (process_transfers c7_state).teams "Boston Celtics" =
      some 107 ∧
    (process_transfers c7_state).transfer_offers = [] := by
  decide

/-- C7 (amended): a transfer naming a team outside the team table is
logged (warning plus the pre-emitted transfer message) and skipped — its
balance changes are not applied — and the simulation continues; no fatal
error or abort exists on this path. -/
theorem c7_unknown_participant_skipped (s : SimulationState) (o : Offer)
    (h : hasTeam s.teams o.from_team = false ∨
      hasTeam s.teams o.to_team = false) :
    applyOffer s o =
      { s with messages := s.messages ++ [transferMsg o] } := by
  have hguard :
      (hasTeam s.teams o.from_team && hasTeam s.teams o.to_team) = false := by
    rcases h with h | h <;> simp [h]
  unfold applyOffer
  dsimp only
  rw [hguard]
  rfl

theorem c7_unknown_participant_skipped_witness :
    applyOffer c7_state c7_offer_bad =
      { c7_state with
        messages := c7_state.messages ++ [transferMsg c7_offer_bad] } :=
  c7_unknown_participant_skipped c7_state c7_offer_bad (Or.inl (by decide))

/-- C8 counterexample: under the external ownership assignment `c8_owner`
(every player owned by Toronto), the selected proposal `c8_offer` is stale
— its `from_team` (Boston) is not the player's owner — yet the resolution
step applies its balance changes in full (Boston credited to 107, Golden
State debited to 93) instead of failing with `OwnershipMismatch` and
leaving balances unchanged. -/
theorem c8_stale_transfer_applied :
    IsStale c8_owner c8_offer ∧
    lookupTeam (process_transfers c8_state).teams "Boston Celtics" =
      some 107 ∧
    lookupTeam (process_transfers c8_state).teams "Golden State Warriors" =
      some 93 := by
  refine ⟨?_, by decide, by decide⟩
  unfold IsStale
  decide

/-- C8 (amended): the code performs no ownership or staleness check —
there is no `OwnershipMismatch` failure path.  A stale selected proposal
whose named teams are in the table has its balance changes applied exactly
as a fresh one would, with the transfer record appended. -/
theorem c8_no_staleness_check (owner : String → String)
    (s : SimulationState) (o : Offer) (hst : IsStale owner o)
    (hf : hasTeam s.teams o.from_team = true)
    (ht : hasTeam s.teams o.to_team = true) :
    (applyOffer s o).teams =
      adjustTeam (adjustTeam s.teams o.from_team o.proposed_price)
        o.to_team (-o.proposed_price) ∧
    (applyOffer s o).messages = s.messages ++ [transferMsg o] := by
  refine ⟨?_, applyOffer_messages s o⟩
  rw [applyOffer_teams, if_pos (by rw [hf, ht]; rfl)]

theorem c8_no_staleness_check_witness :
    (applyOffer c8_state c8_offer).teams =
      adjustTeam (adjustTeam c8_state.teams c8_offer.from_team
        c8_offer.proposed_price) c8_offer.to_team
        (-c8_offer.proposed_price) ∧
    (applyOffer c8_state c8_offer).messages =
      c8_state.messages ++ [transferMsg c8_offer] :=
  c8_no_staleness_check c8_owner c8_state c8_offer
    (by unfold IsStale; decide) (by decide) (by decide)

/-- C9: during proposal collection, a proposal whose buying or selling
team is outside the valid roster is dropped (with a logged warning) and
contributes no transfer offer; the agent node still returns normally, so
the turn continues. -/
theorem c9_invalid_counterparty_dropped (vts : List String) (o : Offer)
    (h : o.to_team ∉ vts ∨ o.from_team ∉ vts) :
    team_agent_offers vts (some o) = [] := by
  simp only [team_agent_offers]
  rw [if_pos h]

theorem c9_invalid_counterparty_dropped_witness :
    team_agent_offers valid_teams (some c9_offer) = [] :=
  c9_invalid_counterparty_dropped valid_teams c9_offer (Or.inl (by decide))

/-- C10 counterexample: the self-transfer proposal `c10_offer`
(`from_team = to_team = "Boston Celtics"`, a roster member) passes the
collection-time validation and is contributed to the turn's offer list,
contradicting the claim that a proposal with proposed owner equal to
current owner is never accepted. -/
theorem c10_self_proposal_accepted :
    c10_offer.from_team = c10_offer.to_team ∧
    team_agent_offers valid_teams (some c10_offer) = [c10_offer] := by
  decide

/-- C10 (amended): every proposal that survives collection-time validation
names a buying team and a selling team that are both members of the valid
roster; the validation does *not* require them to differ, so self-transfer
proposals are accepted. -/
theorem c10_roster_membership_enforced (vts : List String)
    (d : Option Offer) (o : Offer) (h : o ∈ team_agent_offers vts d) :
    o.to_team ∈ vts ∧ o.from_team ∈ vts := by
  cases d with
  | none => simp [team_agent_offers] at h
  | some o2 =>
      simp only [team_agent_offers] at h
      split at h
      · simp at h
      · rename_i hc
        push_neg at hc
        simp only [List.mem_singleton] at h
        subst h
        exact hc

theorem c10_roster_membership_enforced_witness :
    offerR.to_team ∈ valid_teams ∧ offerR.from_team ∈ valid_teams :=
  c10_roster_membership_enforced valid_teams (some offerR) offerR (by decide)
